import Mathlib

/-!
Verification of the promptops repository core: the content-addressable
version store (`promptops/core/versioning.py`), the deployment coordinator
(`promptops/api/app.py`), and the cache layer (`promptops/deploy/engine.py`),
shallowly embedded in Lean 4.  Machine integers are modelled as `Nat` with
explicit reduction modulo 2^32 where the Python code relies on 32-bit
arithmetic (inside SHA-256); Python exceptions are modelled with `Except`.
-/

namespace PromptOps

/-! ## SHA-256 (hashlib.sha256), modelled over `Nat` -/

/-- Reduce to a 32-bit word, as `x % 2^32`. -/
def u32 (x : Nat) : Nat := x % 4294967296

/-- Right rotation of a 32-bit word by `n` bits. -/
def rotr (n x : Nat) : Nat := u32 ((x >>> n) ||| (x <<< (32 - n)))

/-- Bitwise complement of a 32-bit word. -/
def compl32 (x : Nat) : Nat := x ^^^ 4294967295

def bsig0 (x : Nat) : Nat := (rotr 2 x) ^^^ (rotr 13 x) ^^^ (rotr 22 x)

def bsig1 (x : Nat) : Nat := (rotr 6 x) ^^^ (rotr 11 x) ^^^ (rotr 25 x)

def ssig0 (x : Nat) : Nat := (rotr 7 x) ^^^ (rotr 18 x) ^^^ (x >>> 3)

def ssig1 (x : Nat) : Nat := (rotr 17 x) ^^^ (rotr 19 x) ^^^ (x >>> 10)

/-- The 64 SHA-256 round constants (FIPS 180-4, section 4.2.2). -/
def shaK : List Nat := [
  1116352408, 1899447441, 3049323471, 3921009573, 961987163, 1508970993, 2453635748, 2870763221,
  3624381080, 310598401, 607225278, 1426881987, 1925078388, 2162078206, 2614888103, 3248222580,
  3835390401, 4022224774, 264347078, 604807628, 770255983, 1249150122, 1555081692, 1996064986,
  2554220882, 2821834349, 2952996808, 3210313671, 3336571891, 3584528711, 113926993, 338241895,
  666307205, 773529912, 1294757372, 1396182291, 1695183700, 1986661051, 2177026350, 2456956037,
  2730485921, 2820302411, 3259730800, 3345764771, 3516065817, 3600352804, 4094571909, 275423344,
  430227734, 506948616, 659060556, 883997877, 958139571, 1322822218, 1537002063, 1747873779,
  1955562222, 2024104815, 2227730452, 2361852424, 2428436474, 2756734187, 3204031479, 3329325298]

/-- The initial SHA-256 hash state (FIPS 180-4, section 5.3.3). -/
def shaH0 : List Nat :=
  [1779033703, 3144134277, 1013904242, 2773480762, 1359893119, 2600822924, 528734635, 1541459225]

/-- UTF-8 encoding of one character, as a list of byte values. -/
def utf8Bytes (c : Char) : List Nat :=
  let n := c.toNat
  if n < 128 then [n]
  else if n < 2048 then [192 + n / 64, 128 + n % 64]
  else if n < 65536 then [224 + n / 4096, 128 + (n / 64) % 64, 128 + n % 64]
  else [240 + n / 262144, 128 + (n / 4096) % 64, 128 + (n / 64) % 64, 128 + n % 64]

/-- UTF-8 encoding of a string (Python `str.encode()`). -/
def strBytes (s : String) : List Nat := (s.toList.map utf8Bytes).flatten

/-- Big-endian 8-byte encoding of a 64-bit length value. -/
def be64 (n : Nat) : List Nat :=
  [(n >>> 56) % 256, (n >>> 48) % 256, (n >>> 40) % 256, (n >>> 32) % 256,
   (n >>> 24) % 256, (n >>> 16) % 256, (n >>> 8) % 256, n % 256]

/-- SHA-256 message padding: append `0x80`, zero bytes, and the bit length. -/
def padMsg (bytes : List Nat) : List Nat :=
  let len := bytes.length
  let zeros := (119 - len % 64) % 64
  bytes ++ [128] ++ List.replicate zeros 0 ++ be64 (len * 8)

/-- Group bytes into big-endian 32-bit words. -/
def toWords : List Nat → List Nat
  | b0 :: b1 :: b2 :: b3 :: rest =>
      (b0 * 16777216 + b1 * 65536 + b2 * 256 + b3) :: toWords rest
  | _ => []

/-- Group a word list into 16-word blocks. -/
def chunk16 : List Nat → List (List Nat)
  | w0 :: w1 :: w2 :: w3 :: w4 :: w5 :: w6 :: w7 ::
    w8 :: w9 :: w10 :: w11 :: w12 :: w13 :: w14 :: w15 :: rest =>
      [w0, w1, w2, w3, w4, w5, w6, w7, w8, w9, w10, w11, w12, w13, w14, w15] :: chunk16 rest
  | _ => []

/-- Extend the 16-word message schedule by `k` further words. -/
def extendW (w : List Nat) : Nat → List Nat
  | 0 => w
  | k + 1 =>
    let i := w.length
    let nw := u32 (ssig1 (w.getD (i - 2) 0) + w.getD (i - 7) 0 +
                   ssig0 (w.getD (i - 15) 0) + w.getD (i - 16) 0)
    extendW (w ++ [nw]) k

/-- The eight 32-bit working variables of the SHA-256 compression loop. -/
structure Sha8 where
  a : Nat
  b : Nat
  c : Nat
  d : Nat
  e : Nat
  f : Nat
  g : Nat
  h : Nat

/-- One round of the SHA-256 compression function; `kw` is `K[i] + W[i]`. -/
def compressRound (st : Sha8) (kw : Nat) : Sha8 :=
  let t1 := u32 (st.h + bsig1 st.e + ((st.e &&& st.f) ^^^ (compl32 st.e &&& st.g)) + kw)
  let t2 := u32 (bsig0 st.a + ((st.a &&& st.b) ^^^ (st.a &&& st.c) ^^^ (st.b &&& st.c)))
  ⟨u32 (t1 + t2), st.a, st.b, st.c, u32 (st.d + t1), st.e, st.f, st.g⟩

/-- Process one 512-bit block, updating the eight-word hash state. -/
def processBlock (hs : List Nat) (block : List Nat) : List Nat :=
  let w := extendW block 48
  let kw := (shaK.zip w).map (fun p => u32 (p.1 + p.2))
  let st0 : Sha8 := ⟨hs.getD 0 0, hs.getD 1 0, hs.getD 2 0, hs.getD 3 0,
                     hs.getD 4 0, hs.getD 5 0, hs.getD 6 0, hs.getD 7 0⟩
  let st := kw.foldl compressRound st0
  [u32 (hs.getD 0 0 + st.a), u32 (hs.getD 1 0 + st.b), u32 (hs.getD 2 0 + st.c),
   u32 (hs.getD 3 0 + st.d), u32 (hs.getD 4 0 + st.e), u32 (hs.getD 5 0 + st.f),
   u32 (hs.getD 6 0 + st.g), u32 (hs.getD 7 0 + st.h)]

/-- One lowercase hex digit. -/
def hexDigitStr (n : Nat) : String :=
  String.singleton (Char.ofNat (if n < 10 then 48 + n else 87 + n))

/-- Fixed-width lowercase hex rendering (`k` digits, most significant first). -/
def hexFixed (n : Nat) : Nat → String
  | 0 => ""
  | k + 1 => hexFixed (n / 16) k ++ hexDigitStr (n % 16)

/-- Hex digest of SHA-256 over the UTF-8 bytes of `s`
(`hashlib.sha256(s.encode()).hexdigest()`).  Irreducible: no proof in this
development depends on the internals of the digest, only on it being a
function of its input string. -/
@[irreducible] def sha256hex (s : String) : String :=
  let blocks := chunk16 (toWords (padMsg (strBytes s)))
  let hs := blocks.foldl processBlock shaH0
  String.join (hs.map (fun x => hexFixed x 8))

/-! ## Canonical JSON serialization (json.dumps with sort_keys=True)

`json.dumps` is called with its defaults apart from `sort_keys=True`:
item separator `", "`, key separator `": "`, and `ensure_ascii=True`
(characters outside the printable ASCII range are `\uXXXX`-escaped). -/

/-- JSON escape of one character, as produced by `json.dumps` with
`ensure_ascii=True` (everything outside `0x20..0x7e` is escaped). -/
def escChar (c : Char) : String :=
  let n := c.toNat
  if n = 34 then "\\\"" else
  if n = 92 then "\\\\" else
  if n = 8 then "\\b" else
  if n = 9 then "\\t" else
  if n = 10 then "\\n" else
  if n = 12 then "\\f" else
  if n = 13 then "\\r" else
  if n < 32 then "\\u" ++ hexFixed n 4 else
  if n < 127 then String.singleton c else
  if n < 65536 then "\\u" ++ hexFixed n 4
  else
    let m := n - 65536
    "\\u" ++ hexFixed (55296 + m / 1024) 4 ++ "\\u" ++ hexFixed (56320 + m % 1024) 4

/-- JSON rendering of a string literal. -/
def jsonStr (s : String) : String :=
  "\"" ++ String.join (s.toList.map escChar) ++ "\""

/-- Values a Python metadata dict may hold (`Dict[str, Any]`): strings,
numbers, booleans and `None`.  A number is modelled as a scaled decimal
`mantissa / 10^shift`, matching the decimal rendering `json.dumps` gives
floats such as `0.7`. -/
inductive MetaVal where
  | s (v : String)
  | n (mantissa : Int) (shift : Nat)
  | b (v : Bool)
  | nil
deriving DecidableEq, Repr

/-- Left-pad a digit string with zeros to width `k`. -/
def padZeros (s : String) (k : Nat) : String :=
  String.mk (List.replicate (k - s.length) (Char.ofNat 48)) ++ s

/-- Decimal rendering of a scaled-decimal number, as `json.dumps` renders a
Python float (`0.7` renders as `"0.7"`, `1` with shift `0` as `"1.0"`). -/
def renderNum (m : Int) (shift : Nat) : String :=
  let sign := if m < 0 then "-" else ""
  let a := m.natAbs
  if shift = 0 then sign ++ Nat.repr a ++ ".0"
  else sign ++ Nat.repr (a / 10 ^ shift) ++ "." ++ padZeros (Nat.repr (a % 10 ^ shift)) shift

/-- JSON rendering of a metadata value. -/
def jsonVal : MetaVal → String
  | .s v => jsonStr v
  | .n m k => renderNum m k
  | .b true => "true"
  | .b false => "false"
  | .nil => "null"

/-! ## Metadata dictionaries -/

/-- A Python metadata dict, modelled as an association list; `mget` mirrors
`dict.get(key, default)` (first binding wins, like a dict with unique keys). -/
abbrev Metadata : Type := List (String × MetaVal)

/-- `metadata.get(k, d)`. -/
def mget (m : Metadata) (k : String) (d : MetaVal) : MetaVal :=
  match List.find? (fun kv => kv.1 == k) m with
  | some kv => kv.2
  | none => d

/-! ## compute_hash (promptops/core/versioning.py, lines 31-49) -/

/-- The stable JSON string `json.dumps(hashable, sort_keys=True)` built in
`compute_hash`: exactly the fields content, model, temperature, version (in
sorted key order), with the source defaults `""`, `0.7`, `"1.0.0"`. -/
def stableStr (content : String) (metadata : Metadata) : String :=
  "\x7b\"content\": " ++ jsonStr content ++
  ", \"model\": " ++ jsonVal (mget metadata "model" (MetaVal.s "")) ++
  ", \"temperature\": " ++ jsonVal (mget metadata "temperature" (MetaVal.n 7 1)) ++
  ", \"version\": " ++ jsonVal (mget metadata "version" (MetaVal.s "1.0.0")) ++ "\x7d"

/-- `compute_hash(content, metadata)`: SHA-256 hex digest of the stable
JSON string over `(content, model, temperature, version)`. -/
def compute_hash (content : String) (metadata : Metadata) : String :=
  sha256hex (stableStr content metadata)

/-! ## The version store (promptops/core/versioning.py, promptops/core/models.py)

A `PromptVersion` row.  `uuid4` identities are modelled by a store-scoped
counter (what uuid4 provides is uniqueness); `datetime.utcnow()` by a
logical clock that advances at each insertion. -/

structure VNode where
  id : Nat
  content : String
  hash : String
  parent_id : Option Nat
  author : String
  timestamp : Nat
  tags : List String
  prompt_metadata : Metadata
deriving DecidableEq, Repr

/-- The `prompt_versions` table plus the id/time generators. -/
structure Store where
  nodes : List VNode
  nextId : Nat
  clock : Nat
deriving DecidableEq, Repr

def emptyStore : Store := ⟨[], 0, 0⟩

/-- `db.query(PromptVersion).filter(PromptVersion.hash == h).first()`. -/
def findByHash (db : Store) (h : String) : Option VNode :=
  List.find? (fun n => n.hash == h) db.nodes

/-- Point lookup by id. -/
def findById (db : Store) (i : Nat) : Option VNode :=
  List.find? (fun n => n.id == i) db.nodes

/-- Number of stored rows whose hash equals `h`. -/
def countHash (db : Store) (h : String) : Nat :=
  (List.filter (fun n => n.hash == h) db.nodes).length

/-- `get_current_head`: most recent row by `timestamp` (ORDER BY timestamp
DESC, first row; earliest-inserted row wins a tie). -/
def newestNode : List VNode → Option VNode
  | [] => none
  | v :: vs =>
    match newestNode vs with
    | none => some v
    | some w => if w.timestamp > v.timestamp then some w else some v

def get_current_head (db : Store) : Option VNode := newestNode db.nodes

/-- `create_version(content, metadata, tags, author, message, db, parent_id)`
(versioning.py lines 97-145): compute the hash, return the existing row if
one with that hash exists, otherwise persist a new row whose metadata gains
`commit_message = message`. -/
def create_version (content : String) (metadata : Metadata) (tags : List String)
    (author : String) (message : String) (parent_id : Option Nat) (db : Store) :
    VNode × Store :=
  let version_hash := compute_hash content metadata
  match findByHash db version_hash with
  | some existing => (existing, db)
  | none =>
    let full_metadata : Metadata := ("commit_message", MetaVal.s message) :: metadata
    let n : VNode := ⟨db.nextId, content, version_hash, parent_id, author,
                      db.clock, tags, full_metadata⟩
    (n, ⟨db.nodes ++ [n], db.nextId + 1, db.clock + 1⟩)

/-- The while loop of `get_version_history` (lines 176-186): append the
current row, follow `parent_id` while the counter stays below `limit`, and
break (after appending) at a row with no parent. -/
def historyWalk (db : Store) : Option VNode → Nat → List VNode
  | none, _ => []
  | some _, 0 => []
  | some c, fuel + 1 =>
    match c.parent_id with
    | some pid => c :: historyWalk db (findById db pid) fuel
    | none => [c]

/-- `get_version_history(db, limit, start_from)` (lines 157-188): start at
`start_from` when given, else at the current head, then walk parents. -/
def get_version_history (db : Store) (limit : Nat) (start_from : Option Nat) :
    List VNode :=
  match start_from with
  | some sid => historyWalk db (findById db sid) limit
  | none => historyWalk db (get_current_head db) limit

/-! ## parse_prompt_file (versioning.py, lines 52-85)

The YAML layer is external; the parsed document is modelled as the
association list `data` it yields.  File-system errors aside, the function
rejects an empty document and an empty or missing `content` field, and
returns `content.strip()` with the extracted metadata. -/

/-- Python `str.strip()`: drop leading and trailing whitespace.  Defined by
structural recursion over the character list so that it evaluates on
concrete inputs. -/
def pyStrip (s : String) : String :=
  String.mk (((s.toList.dropWhile (fun c => c.isWhitespace)).reverse.dropWhile
    (fun c => c.isWhitespace)).reverse)

/-- Result of `parse_prompt_file`. -/
structure ParsedPrompt where
  content : String
  metadata : Metadata
  tags : List String
deriving DecidableEq, Repr

/-- `data.get(k, d)` restricted to string values (`content`, `name`,
`version`, `model` are strings in every prompt file). -/
def getStrD (data : Metadata) (k : String) (d : String) : String :=
  match mget data k (MetaVal.s d) with
  | MetaVal.s v => v
  | _ => d

/-- `parse_prompt_file` on a parsed YAML document `data` from a file with
stem `stem`; `tags` is the parsed `tags` list.  `ValueError` becomes
`Except.error`. -/
def parse_prompt_file (data : Metadata) (stem : String) (tagsField : List String) :
    Except String ParsedPrompt :=
  if data = ([] : Metadata) then .error "Empty or invalid YAML file"
  else
    let content := getStrD data "content" ""
    if content = "" then .error "No content field"
    else
      let metadata : Metadata :=
        [("name", MetaVal.s (getStrD data "name" stem)),
         ("version", MetaVal.s (getStrD data "version" "1.0.0")),
         ("model", MetaVal.s (getStrD data "model" "gpt-4")),
         ("temperature", mget data "temperature" (MetaVal.n 7 1)),
         ("max_tokens", mget data "max_tokens" MetaVal.nil),
         ("top_p", mget data "top_p" MetaVal.nil)]
      .ok ⟨pyStrip content, metadata, tagsField⟩

/-! ## The deployment coordinator (promptops/api/app.py)

A `Deployment` row; ids and `deployed_at` timestamps are modelled by
store-scoped counters as for version rows. -/

structure DRow where
  id : Nat
  version_id : Nat
  environment : String
  deployed_at : Nat
  deployed_by : String
  is_active : Bool
deriving DecidableEq, Repr

/-- The deployment side of the database: the version table it references,
the `deployments` table, and the id/time generators. -/
structure DState where
  versions : List VNode
  deps : List DRow
  nextDepId : Nat
  clock : Nat
deriving DecidableEq, Repr

/-- A deployment store with the given version rows and no deployments. -/
def initDState (versions : List VNode) : DState := ⟨versions, [], 0, 0⟩

/-- HTTP error outcomes of the deploy/rollback endpoints. -/
inductive DepErr where
  | versionNotFound
  | noActiveDeployment
  | noPreviousDeployment
deriving DecidableEq, Repr

/-- Version lookup by hash (`get_version_by_hash`). -/
def findVersionByHash (vs : List VNode) (h : String) : Option VNode :=
  List.find? (fun v => v.hash == h) vs

/-- Does a row match `environment == env AND is_active == True`? -/
def activeFor (env : String) (r : DRow) : Bool :=
  r.environment == env && r.is_active

/-- The deactivation loop of `deploy_version`: `dep.is_active = False` on
every currently-active row of the environment. -/
def deactivate (env : String) (r : DRow) : DRow :=
  if activeFor env r then { r with is_active := false } else r

/-- `ORDER BY deployed_at DESC ... first()`: the row with the greatest
`deployed_at` (earliest-inserted row wins a tie). -/
def latestDeployed : List DRow → Option DRow
  | [] => none
  | r :: rs =>
    match latestDeployed rs with
    | none => some r
    | some w => if w.deployed_at > r.deployed_at then some w else some r

/-- `deploy_version` (app.py lines 147-204): resolve the version (404 if
absent), deactivate every active row of the environment, then insert one
new active row. -/
def deploy (env h actor : String) (s : DState) : Except DepErr (DRow × DState) :=
  match findVersionByHash s.versions h with
  | none => .error .versionNotFound
  | some v =>
    let d : DRow := ⟨s.nextDepId, v.id, env, s.clock, actor, true⟩
    .ok (d, { s with deps := s.deps.map (deactivate env) ++ [d],
                     nextDepId := s.nextDepId + 1, clock := s.clock + 1 })

/-- The two-row flip of `rollback_deployment`: `current` becomes inactive,
`previous` becomes active, every other row is untouched. -/
def swapFlip (curId prevId : Nat) (r : DRow) : DRow :=
  if r.id == curId then { r with is_active := false }
  else if r.id == prevId then { r with is_active := true }
  else r

/-- `rollback_deployment` (app.py lines 207-263): `current` is the most
recent active row of the environment (404 if none), `previous` the most
recent row of the environment other than `current` (400 if none,
regardless of its `is_active` flag); then swap the two flags. -/
def rollback (env : String) (s : DState) : Except DepErr DState :=
  match latestDeployed (s.deps.filter (activeFor env)) with
  | none => .error .noActiveDeployment
  | some current =>
    match latestDeployed (s.deps.filter
        (fun r => r.environment == env && r.id != current.id)) with
    | none => .error .noPreviousDeployment
    | some previous =>
      .ok { s with deps := s.deps.map (swapFlip current.id previous.id) }

/-- An API call against the coordinator. -/
inductive DOp where
  | deploy (env h actor : String)
  | rollback (env : String)
deriving DecidableEq, Repr

/-- Run one call; a failed call raises an HTTPException before any write, so
it leaves the state unchanged. -/
def stepOp (s : DState) (op : DOp) : DState :=
  match op with
  | .deploy env h actor =>
    match deploy env h actor s with
    | .ok (_, s2) => s2
    | .error _ => s
  | .rollback env =>
    match rollback env s with
    | .ok s2 => s2
    | .error _ => s

/-- Run a sequence of interleaved deploy/rollback calls. -/
def runOps (ops : List DOp) (s : DState) : DState := ops.foldl stepOp s

/-- Number of rows with `is_active = True` for an environment. -/
def countActive (env : String) (s : DState) : Nat :=
  (s.deps.filter (activeFor env)).length

/-- The coordinator's invariant: deployment ids are pairwise distinct and
below the id generator, and each environment has at most one active row. -/
def DInv (s : DState) : Prop :=
  s.deps.Pairwise (fun a b => a.id ≠ b.id) ∧
  (∀ r ∈ s.deps, r.id < s.nextDepId) ∧
  (∀ env, countActive env s ≤ 1)

/-! ## The cache synchronizer (promptops/deploy/engine.py)

The Redis client is an external service: its primitive calls are modelled
as an arbitrary behaviour, each call either returning a value or raising
(`Except.error`).  `decode`/`encode` model `json.loads`/`json.dumps`.
The wrapper methods return `Except` so that an uncaught exception would be
visible in their type; the theorems show they always return `.ok`. -/

structure RedisConn (α : Type) where
  available : Bool
  rget : String → Except String (Option String)
  rsetex : String → Nat → String → Except String Unit
  rkeys : String → Except String (List String)
  rdel : List String → Except String Nat
  decode : String → Except String α
  encode : α → String

/-- `_get_cache_key(environment, name)`. -/
def cacheKey (env : String) (name : Option String) : String :=
  match name with
  | some n => "promptops:prompt:" ++ env ++ ":" ++ n
  | none => "promptops:prompt:" ++ env ++ ":default"

/-- The try-block body of `get_from_cache`. -/
def getFromCacheBody (b : RedisConn α) (env : String) (name : Option String) :
    Except String (Option α) := do
  let cached ← b.rget (cacheKey env name)
  match cached with
  | some s => if s = "" then pure none else do
      let v ← b.decode s
      pure (some v)
  | none => pure none

/-- `get_from_cache` (engine.py lines 50-72): `None` when Redis is
unavailable, and `except Exception: return None` around the body. -/
def get_from_cache (b : RedisConn α) (env : String) (name : Option String) :
    Except String (Option α) :=
  if b.available = false then .ok none
  else
    match getFromCacheBody b env name with
    | .ok v => .ok v
    | .error _ => .ok none

/-- `set_cache` (engine.py lines 74-90): a no-op when Redis is unavailable,
and `except Exception: pass` around the `setex` call. -/
def set_cache (b : RedisConn α) (env : String) (data : α) (name : Option String)
    (ttl : Nat) : Except String Unit :=
  if b.available = false then .ok ()
  else
    match b.rsetex (cacheKey env name) ttl (b.encode data) with
    | .ok _ => .ok ()
    | .error _ => .ok ()

/-- The try-block body of `invalidate_cache`: list the keys of the
environment, delete them when there are any. -/
def invalidateBody (b : RedisConn α) (env : String) : Except String Nat := do
  let ks ← b.rkeys ("promptops:prompt:" ++ env ++ ":*")
  match ks with
  | [] => pure 0
  | _ => b.rdel ks

/-- `invalidate_cache` (engine.py lines 92-108): a no-op when Redis is
unavailable, and `except Exception: pass` around the body. -/
def invalidate_cache (b : RedisConn α) (env : String) : Except String Unit :=
  if b.available = false then .ok ()
  else
    match invalidateBody b env with
    | .ok _ => .ok ()
    | .error _ => .ok ()

/-- A Redis connection whose every primitive call raises (connection lost
after the constructor ping succeeded). -/
def failConn : RedisConn Nat :=
  ⟨true, fun _ => .error "connection refused", fun _ _ _ => .error "connection refused",
   fun _ => .error "connection refused", fun _ => .error "connection refused",
   fun _ => .error "bad payload", fun v => Nat.repr v⟩

/-- A two-node store: a parentless root and a child pointing at it. -/
def histStore : Store :=
  ⟨[⟨0, "root", "aaa", none, "alice", 0, [], []⟩,
    ⟨1, "child", "bbb", some 0, "bob", 1, [], []⟩], 2, 2⟩

instance {ε α : Type} [DecidableEq ε] [DecidableEq α] : DecidableEq (Except ε α) :=
  fun a b =>
  match a, b with
  | .ok x, .ok y =>
    if h : x = y then .isTrue (congrArg Except.ok h)
    else .isFalse (fun hc => h (Except.ok.inj hc))
  | .error x, .error y =>
    if h : x = y then .isTrue (congrArg Except.error h)
    else .isFalse (fun hc => h (Except.error.inj hc))
  | .ok _, .error _ => .isFalse (fun hc => Except.noConfusion hc)
  | .error _, .ok _ => .isFalse (fun hc => Except.noConfusion hc)

/-!  ## Helper lemmas -/

theorem filter_and_eq {α : Type} (p q : α → Bool) (l : List α) :
    l.filter (fun a => p a && q a) = (l.filter p).filter q := by
  induction l with
  | nil => rfl
  | cons a t ih =>
    cases hp : p a <;> cases hq : q a <;>
      simp [List.filter_cons, hp, hq, ih]

theorem filter_map_eq {α : Type} (f : α → α) (p : α → Bool) (l : List α)
    (h : ∀ a ∈ l, p (f a) = p a) :
    (l.map f).filter p = (l.filter p).map f := by
  induction l with
  | nil => rfl
  | cons a t ih =>
    have ha := h a (by simp)
    have ht : ∀ x ∈ t, p (f x) = p x := fun x hx => h x (by simp [hx])
    cases hpa : p a <;>
      simp [List.filter_cons, ha, hpa, ih ht]

theorem filter_map_nil {α : Type} (f : α → α) (p : α → Bool) (l : List α)
    (h : ∀ a ∈ l, p (f a) = false) :
    (l.map f).filter p = [] := by
  induction l with
  | nil => rfl
  | cons a t ih =>
    have ha := h a (by simp)
    have ht : ∀ x ∈ t, p (f x) = false := fun x hx => h x (by simp [hx])
    simp [List.filter_cons, ha, ih ht]

theorem filter_map_length_le {α : Type} (f : α → α) (p q : α → Bool) (l : List α)
    (h : ∀ a ∈ l, p (f a) = true → q a = true) :
    ((l.map f).filter p).length ≤ (l.filter q).length := by
  induction l with
  | nil => simp
  | cons a t ih =>
    have ht : ∀ x ∈ t, p (f x) = true → q x = true :=
      fun x hx => h x (by simp [hx])
    cases hpa : p (f a) with
    | true =>
      have hqa := h a (by simp) hpa
      simp only [List.map_cons, List.filter_cons, hpa, hqa, if_true]
      simpa using ih ht
    | false =>
      simp only [List.map_cons, List.filter_cons, hpa, Bool.false_eq_true, if_false]
      refine le_trans (ih ht) ?_
      cases hqa : q a <;> simp [List.filter_cons, hqa]

theorem mem_length_le_one {α : Type} {l : List α} {x : α}
    (hx : x ∈ l) (h : l.length ≤ 1) : l = [x] := by
  cases l with
  | nil => cases hx
  | cons a t =>
    cases t with
    | nil => simp at hx; simp [hx]
    | cons b u => simp at h

theorem find?_append_none {α : Type} (p : α → Bool) (l₁ l₂ : List α)
    (h : l₁.find? p = none) : (l₁ ++ l₂).find? p = l₂.find? p := by
  induction l₁ with
  | nil => simp
  | cons a t ih =>
    cases hpa : p a with
    | true =>
      rw [List.find?_cons_of_pos _ hpa] at h
      exact absurd h (by simp)
    | false =>
      rw [List.find?_cons_of_neg _ (by simp [hpa])] at h
      rw [List.cons_append, List.find?_cons_of_neg _ (by simp [hpa])]
      exact ih h

theorem pairwise_id_filter_le_one {l : List DRow}
    (h : l.Pairwise (fun a b => a.id ≠ b.id)) (x : Nat) :
    (l.filter (fun r => r.id == x)).length ≤ 1 := by
  induction l with
  | nil => simp
  | cons a t ih =>
    rw [List.pairwise_cons] at h
    cases hax : (a.id == x) with
    | true =>
      have hnil : t.filter (fun r => r.id == x) = [] := by
        refine List.filter_eq_nil_iff.mpr ?_
        intro r hr
        have : a.id ≠ r.id := h.1 r hr
        have hae : a.id = x := by simpa using hax
        simp [hae ▸ this.symm]
      simp [List.filter_cons, hax, hnil]
    | false =>
      simpa [List.filter_cons, hax] using ih h.2

theorem pairwise_unique_id {l : List DRow}
    (h : l.Pairwise (fun a b => a.id ≠ b.id)) {a b : DRow}
    (ha : a ∈ l) (hb : b ∈ l) (heq : a.id = b.id) : a = b := by
  induction l with
  | nil => cases ha
  | cons c t ih =>
    rw [List.pairwise_cons] at h
    rcases List.mem_cons.mp ha with rfl | ha2
    · rcases List.mem_cons.mp hb with rfl | hb2
      · rfl
      · exact absurd heq (h.1 b hb2)
    · rcases List.mem_cons.mp hb with rfl | hb2
      · exact absurd heq.symm (h.1 a ha2)
      · exact ih h.2 ha2 hb2

theorem latestDeployed_mem : ∀ {l : List DRow} {x : DRow},
    latestDeployed l = some x → x ∈ l := by
  intro l
  induction l with
  | nil => intro x hx; simp [latestDeployed] at hx
  | cons r rs ih =>
    intro x hx
    unfold latestDeployed at hx
    split at hx
    · simp at hx; simp [hx]
    · rename_i w hrec
      split at hx
      · simp at hx
        exact List.mem_cons_of_mem _ (hx ▸ ih hrec)
      · simp at hx; simp [hx]

theorem newestNode_mem : ∀ {l : List VNode} {x : VNode},
    newestNode l = some x → x ∈ l := by
  intro l
  induction l with
  | nil => intro x hx; simp [newestNode] at hx
  | cons r rs ih =>
    intro x hx
    unfold newestNode at hx
    split at hx
    · simp at hx; simp [hx]
    · rename_i w hrec
      split at hx
      · simp at hx
        exact List.mem_cons_of_mem _ (hx ▸ ih hrec)
      · simp at hx; simp [hx]

theorem findByHash_of_countHash_zero {db : Store} {h : String}
    (hc : countHash db h = 0) : findByHash db h = none := by
  have hnil : List.filter (fun n => n.hash == h) db.nodes = [] :=
    List.length_eq_zero.mp hc
  exact List.find?_eq_none.mpr (List.filter_eq_nil_iff.mp hnil)

theorem findById_id {db : Store} {i : Nat} {v : VNode}
    (h : findById db i = some v) : v.id = i := by
  have := List.find?_some h
  simpa using this

theorem compute_hash_ext (content : String) (m1 m2 : Metadata)
    (hm : mget m1 "model" (MetaVal.s "") = mget m2 "model" (MetaVal.s ""))
    (ht : mget m1 "temperature" (MetaVal.n 7 1) = mget m2 "temperature" (MetaVal.n 7 1))
    (hv : mget m1 "version" (MetaVal.s "1.0.0") = mget m2 "version" (MetaVal.s "1.0.0")) :
    compute_hash content m1 = compute_hash content m2 := by
  unfold compute_hash stableStr
  rw [hm, ht, hv]

/-- The node `create_version` builds and appends when no row carries the
computed hash. -/
def mkNode (content : String) (metadata : Metadata) (tags : List String)
    (author : String) (message : String) (parent_id : Option Nat) (db : Store) : VNode :=
  ⟨db.nextId, content, compute_hash content metadata, parent_id, author,
   db.clock, tags, ("commit_message", MetaVal.s message) :: metadata⟩

theorem create_version_fresh (content : String) (metadata : Metadata)
    (tags : List String) (author message : String) (parent_id : Option Nat)
    (db : Store) (hf : findByHash db (compute_hash content metadata) = none) :
    create_version content metadata tags author message parent_id db =
      (mkNode content metadata tags author message parent_id db,
       ⟨db.nodes ++ [mkNode content metadata tags author message parent_id db],
        db.nextId + 1, db.clock + 1⟩) := by
  simp only [create_version, hf, mkNode]

theorem create_version_dup (content : String) (metadata : Metadata)
    (tags : List String) (author message : String) (parent_id : Option Nat)
    (db : Store) {n : VNode}
    (hf : findByHash db (compute_hash content metadata) = some n) :
    create_version content metadata tags author message parent_id db = (n, db) := by
  simp only [create_version, hf]

theorem findByHash_push (db : Store) (n : VNode)
    (hf : findByHash db n.hash = none) :
    findByHash ⟨db.nodes ++ [n], db.nextId + 1, db.clock + 1⟩ n.hash = some n := by
  unfold findByHash at *
  rw [find?_append_none _ _ _ hf]
  simp [List.find?]

/-! ## Claim C3 -/

/-- C3: `compute_hash` is a deterministic pure function of exactly the tuple
(content, metadata.model, metadata.temperature, metadata.version): any two
metadata dicts that agree on these three lookups (with the source defaults)
produce the same hash for the same content, whatever other keys — tags,
author, timestamp, commit message — they hold. -/
theorem c3_compute_hash_pure_of_tuple (content : String) (m1 m2 : Metadata)
    (hm : mget m1 "model" (MetaVal.s "") = mget m2 "model" (MetaVal.s ""))
    (ht : mget m1 "temperature" (MetaVal.n 7 1) = mget m2 "temperature" (MetaVal.n 7 1))
    (hv : mget m1 "version" (MetaVal.s "1.0.0") = mget m2 "version" (MetaVal.s "1.0.0")) :
    compute_hash content m1 = compute_hash content m2 :=
  compute_hash_ext content m1 m2 hm ht hv

/-- Witness for C3 at concrete metadata dicts differing in author,
timestamp and an extra note. -/
theorem c3_witness :
    mget [("model", MetaVal.s "gpt-4"), ("author", MetaVal.s "alice")] "model" (MetaVal.s "")
      = mget [("model", MetaVal.s "gpt-4"), ("timestamp", MetaVal.n 123 0),
              ("note", MetaVal.s "x")] "model" (MetaVal.s "")
    ∧ compute_hash "Hello" [("model", MetaVal.s "gpt-4"), ("author", MetaVal.s "alice")]
      = compute_hash "Hello" [("model", MetaVal.s "gpt-4"), ("timestamp", MetaVal.n 123 0),
              ("note", MetaVal.s "x")] :=
  ⟨rfl, c3_compute_hash_pure_of_tuple "Hello" _ _ rfl rfl rfl⟩

/-- Shared dedup lemma: a second commit whose (content, model, temperature,
version) tuple matches a first commit of fresh content returns the first
call's node and leaves the store unchanged, and that store holds exactly
one row with the hash. -/
theorem commit_dedup_pair (content : String) (md1 md2 : Metadata)
    (tg1 tg2 : List String) (au1 au2 ms1 ms2 : String) (p1 p2 : Option Nat)
    (db : Store)
    (hfresh : countHash db (compute_hash content md1) = 0)
    (hm : mget md2 "model" (MetaVal.s "") = mget md1 "model" (MetaVal.s ""))
    (ht : mget md2 "temperature" (MetaVal.n 7 1) = mget md1 "temperature" (MetaVal.n 7 1))
    (hv : mget md2 "version" (MetaVal.s "1.0.0") = mget md1 "version" (MetaVal.s "1.0.0")) :
    (create_version content md2 tg2 au2 ms2 p2
        (create_version content md1 tg1 au1 ms1 p1 db).2).1
      = (create_version content md1 tg1 au1 ms1 p1 db).1
    ∧ (create_version content md2 tg2 au2 ms2 p2
        (create_version content md1 tg1 au1 ms1 p1 db).2).2
      = (create_version content md1 tg1 au1 ms1 p1 db).2
    ∧ countHash (create_version content md1 tg1 au1 ms1 p1 db).2
        (compute_hash content md1) = 1
    ∧ (create_version content md1 tg1 au1 ms1 p1 db).1.parent_id = p1
    ∧ (create_version content md1 tg1 au1 ms1 p1 db).1.tags = tg1
    ∧ mget (create_version content md1 tg1 au1 ms1 p1 db).1.prompt_metadata
        "commit_message" MetaVal.nil = MetaVal.s ms1 := by
  have hf : findByHash db (compute_hash content md1) = none :=
    findByHash_of_countHash_zero hfresh
  have h1 := create_version_fresh content md1 tg1 au1 ms1 p1 db hf
  have hhash : compute_hash content md2 = compute_hash content md1 :=
    compute_hash_ext content md2 md1 hm ht hv
  have hnhash : (mkNode content md1 tg1 au1 ms1 p1 db).hash = compute_hash content md1 := rfl
  have hf2 : findByHash (create_version content md1 tg1 au1 ms1 p1 db).2
      (compute_hash content md2) = some (mkNode content md1 tg1 au1 ms1 p1 db) := by
    rw [h1, hhash]
    have := findByHash_push db (mkNode content md1 tg1 au1 ms1 p1 db)
      (by rw [hnhash]; exact hf)
    rw [hnhash] at this
    exact this
  have h2 := create_version_dup content md2 tg2 au2 ms2 p2
    (create_version content md1 tg1 au1 ms1 p1 db).2 hf2
  have hnil : List.filter (fun n => n.hash == compute_hash content md1) db.nodes = [] :=
    List.length_eq_zero.mp hfresh
  refine ⟨?_, ?_, ?_, ?_, ?_, ?_⟩
  · rw [h2, h1]
  · rw [h2]
  · rw [h1]
    simp [countHash, List.filter_append, hnil, mkNode]
  · rw [h1]; rfl
  · rw [h1]; rfl
  · rw [h1]
    simp [mkNode, mget, List.find?]

/-! ## Claim C2 -/

/-- C2: `create_version` is idempotent on the hash: after a first commit of
fresh content, a second commit with the same (content, model, temperature,
version) — whatever its parent, tags, author or message — returns the very
node stored by the first call (which carries the first call's parent, tags
and commit message), leaves the store unchanged, and the store holds
exactly one row with that hash. -/
theorem c2_commit_idempotent (content : String) (md1 md2 : Metadata)
    (tg1 tg2 : List String) (au1 au2 ms1 ms2 : String) (p1 p2 : Option Nat)
    (db : Store)
    (hfresh : countHash db (compute_hash content md1) = 0)
    (hm : mget md2 "model" (MetaVal.s "") = mget md1 "model" (MetaVal.s ""))
    (ht : mget md2 "temperature" (MetaVal.n 7 1) = mget md1 "temperature" (MetaVal.n 7 1))
    (hv : mget md2 "version" (MetaVal.s "1.0.0") = mget md1 "version" (MetaVal.s "1.0.0")) :
    (create_version content md2 tg2 au2 ms2 p2
        (create_version content md1 tg1 au1 ms1 p1 db).2).1
      = (create_version content md1 tg1 au1 ms1 p1 db).1
    ∧ (create_version content md2 tg2 au2 ms2 p2
        (create_version content md1 tg1 au1 ms1 p1 db).2).2
      = (create_version content md1 tg1 au1 ms1 p1 db).2
    ∧ countHash (create_version content md1 tg1 au1 ms1 p1 db).2
        (compute_hash content md1) = 1
    ∧ (create_version content md1 tg1 au1 ms1 p1 db).1.parent_id = p1
    ∧ (create_version content md1 tg1 au1 ms1 p1 db).1.tags = tg1
    ∧ mget (create_version content md1 tg1 au1 ms1 p1 db).1.prompt_metadata
        "commit_message" MetaVal.nil = MetaVal.s ms1 :=
  commit_dedup_pair content md1 md2 tg1 tg2 au1 au2 ms1 ms2 p1 p2 db hfresh hm ht hv

/-- Witness for C2: committing the scenario prompt twice into an empty
store, with a different parent, tags and message the second time. -/
theorem c2_witness :
    countHash emptyStore (compute_hash "Summarize: \x7btext\x7d"
        [("model", MetaVal.s "gpt-4")]) = 0
    ∧ (create_version "Summarize: \x7btext\x7d" [("model", MetaVal.s "gpt-4")]
         ["t2"] "bob" "second" (some 7)
         (create_version "Summarize: \x7btext\x7d" [("model", MetaVal.s "gpt-4")]
           ["t1"] "alice" "first" none emptyStore).2).1
      = (create_version "Summarize: \x7btext\x7d" [("model", MetaVal.s "gpt-4")]
           ["t1"] "alice" "first" none emptyStore).1
    ∧ countHash (create_version "Summarize: \x7btext\x7d" [("model", MetaVal.s "gpt-4")]
           ["t1"] "alice" "first" none emptyStore).2
        (compute_hash "Summarize: \x7btext\x7d" [("model", MetaVal.s "gpt-4")]) = 1 :=
  ⟨rfl,
   (c2_commit_idempotent "Summarize: \x7btext\x7d" [("model", MetaVal.s "gpt-4")]
      [("model", MetaVal.s "gpt-4")] ["t1"] ["t2"] "alice" "bob" "first" "second"
      none (some 7) emptyStore rfl rfl rfl rfl).1,
   (c2_commit_idempotent "Summarize: \x7btext\x7d" [("model", MetaVal.s "gpt-4")]
      [("model", MetaVal.s "gpt-4")] ["t1"] ["t2"] "alice" "bob" "first" "second"
      none (some 7) emptyStore rfl rfl rfl rfl).2.2.1⟩

/-! ## Claim C10 -/

/-- C10: `compute_hash` substitutes the fixed defaults `model = ""`,
`temperature = 0.7`, `version = "1.0.0"` for absent keys, so an empty
metadata dict hashes like one stating exactly those defaults, and a commit
omitting the keys deduplicates against a commit stating them. -/
theorem c10_hash_defaults (content : String) (tg1 tg2 : List String)
    (au1 au2 ms1 ms2 : String) (p1 p2 : Option Nat) (db : Store)
    (hfresh : countHash db (compute_hash content
        [("model", MetaVal.s ""), ("temperature", MetaVal.n 7 1),
         ("version", MetaVal.s "1.0.0")]) = 0) :
    compute_hash content [] = compute_hash content
        [("model", MetaVal.s ""), ("temperature", MetaVal.n 7 1),
         ("version", MetaVal.s "1.0.0")]
    ∧ (create_version content [] tg2 au2 ms2 p2
         (create_version content
            [("model", MetaVal.s ""), ("temperature", MetaVal.n 7 1),
             ("version", MetaVal.s "1.0.0")] tg1 au1 ms1 p1 db).2).1
      = (create_version content
            [("model", MetaVal.s ""), ("temperature", MetaVal.n 7 1),
             ("version", MetaVal.s "1.0.0")] tg1 au1 ms1 p1 db).1
    ∧ (create_version content [] tg2 au2 ms2 p2
         (create_version content
            [("model", MetaVal.s ""), ("temperature", MetaVal.n 7 1),
             ("version", MetaVal.s "1.0.0")] tg1 au1 ms1 p1 db).2).2
      = (create_version content
            [("model", MetaVal.s ""), ("temperature", MetaVal.n 7 1),
             ("version", MetaVal.s "1.0.0")] tg1 au1 ms1 p1 db).2 := by
  have h := commit_dedup_pair content
    [("model", MetaVal.s ""), ("temperature", MetaVal.n 7 1),
     ("version", MetaVal.s "1.0.0")] [] tg1 tg2 au1 au2 ms1 ms2 p1 p2 db hfresh
    rfl rfl rfl
  exact ⟨compute_hash_ext content [] _ rfl rfl rfl, h.1, h.2.1⟩

/-- Witness for C10: an omitted-defaults commit deduplicates against an
explicit-defaults commit in the empty store. -/
theorem c10_witness :
    countHash emptyStore (compute_hash "You are a helpful assistant."
        [("model", MetaVal.s ""), ("temperature", MetaVal.n 7 1),
         ("version", MetaVal.s "1.0.0")]) = 0
    ∧ compute_hash "You are a helpful assistant." []
      = compute_hash "You are a helpful assistant."
          [("model", MetaVal.s ""), ("temperature", MetaVal.n 7 1),
           ("version", MetaVal.s "1.0.0")]
    ∧ (create_version "You are a helpful assistant." [] [] "bob" "again" none
         (create_version "You are a helpful assistant."
            [("model", MetaVal.s ""), ("temperature", MetaVal.n 7 1),
             ("version", MetaVal.s "1.0.0")] [] "alice" "init" none emptyStore).2).1
      = (create_version "You are a helpful assistant."
            [("model", MetaVal.s ""), ("temperature", MetaVal.n 7 1),
             ("version", MetaVal.s "1.0.0")] [] "alice" "init" none emptyStore).1 :=
  ⟨rfl,
   (c10_hash_defaults "You are a helpful assistant." [] [] "alice" "bob"
      "init" "again" none none emptyStore rfl).1,
   (c10_hash_defaults "You are a helpful assistant." [] [] "alice" "bob"
      "init" "again" none none emptyStore rfl).2.1⟩

/-! ## Claim C6 (corrected) -/

/-- C6 counterexample: the claim says a commit of the empty string fails
with ValidationError and leaves the store unchanged; in the code,
`create_version` runs no validation at all, so committing `""` into the
empty store succeeds and persists a node with empty content. -/
theorem c6_counterexample :
    (create_version "" [] [] "alice" "msg" none emptyStore).2.nodes.length = 1
    ∧ (create_version "" [] [] "alice" "msg" none emptyStore).1.content = "" :=
  ⟨rfl, rfl⟩

/-- C6 amended: `create_version` performs no empty-content check — a commit
of `""` whose hash is fresh persists a node with empty content and grows
the store; empty content is rejected only upstream, in `parse_prompt_file`,
which raises before `create_version` is reached on the file-commit path. -/
theorem c6_no_empty_content_validation (metadata : Metadata) (tags : List String)
    (author message : String) (parent_id : Option Nat) (db : Store)
    (hf : findByHash db (compute_hash "" metadata) = none) :
    (create_version "" metadata tags author message parent_id db).2.nodes.length
      = db.nodes.length + 1
    ∧ (create_version "" metadata tags author message parent_id db).1.content = ""
    ∧ (∀ data stem tagsField, getStrD data "content" "" = "" →
        ∃ e, parse_prompt_file data stem tagsField = Except.error e) := by
  have h1 := create_version_fresh "" metadata tags author message parent_id db hf
  refine ⟨by rw [h1]; simp, by rw [h1]; rfl, ?_⟩
  intro data stem tagsField hc
  by_cases hd : data = ([] : Metadata)
  · exact ⟨"Empty or invalid YAML file", by simp [parse_prompt_file, hd]⟩
  · exact ⟨"No content field", by simp [parse_prompt_file, hd, hc]⟩

/-- Witness for C6 amended, at the empty store and a YAML document with no
content field. -/
theorem c6_witness :
    findByHash emptyStore (compute_hash "" []) = none
    ∧ (create_version "" [] [] "alice" "m" none emptyStore).2.nodes.length
        = emptyStore.nodes.length + 1
    ∧ (∃ e, parse_prompt_file [("name", MetaVal.s "x")] "stem" []
          = Except.error e) :=
  ⟨rfl,
   (c6_no_empty_content_validation [] [] "alice" "m" none emptyStore rfl).1,
   (c6_no_empty_content_validation [] [] "alice" "m" none emptyStore rfl).2.2
     [("name", MetaVal.s "x")] "stem" [] rfl⟩

/-! ## Claim C7 (corrected) -/

/-- C7 counterexample: the claim says every newly stored node's content is
the supplied content trimmed; `create_version` stores the content verbatim,
so committing a padded string stores it with its whitespace. -/
theorem c7_counterexample :
    (create_version "  hello  " [] [] "alice" "msg" none emptyStore).1.content
      ≠ pyStrip "  hello  " := by
  decide

/-- C7 amended: `create_version` stores the supplied content verbatim;
trimming happens one layer up, in `parse_prompt_file`, which returns
`content.strip()` — so only nodes committed through the prompt-file path
are guaranteed trimmed. -/
theorem c7_content_stored_verbatim (content : String) (metadata : Metadata)
    (tags : List String) (author message : String) (parent_id : Option Nat)
    (db : Store)
    (hf : findByHash db (compute_hash content metadata) = none) :
    (create_version content metadata tags author message parent_id db).1.content
      = content
    ∧ (∀ data stem tagsField parsed,
        parse_prompt_file data stem tagsField = Except.ok parsed →
        parsed.content = pyStrip (getStrD data "content" "")) := by
  refine ⟨by rw [create_version_fresh content metadata tags author message parent_id db hf]; rfl, ?_⟩
  intro data stem tagsField parsed hp
  simp only [parse_prompt_file] at hp
  split at hp
  · simp at hp
  · split at hp
    · simp at hp
    · simp only [Except.ok.injEq] at hp
      rw [← hp]

/-- Witness for C7 amended: a fresh commit stores padded content verbatim,
and the file parser trims. -/
theorem c7_witness :
    findByHash emptyStore (compute_hash "x" []) = none
    ∧ (create_version "x" [] [] "a" "m" none emptyStore).1.content = "x"
    ∧ parse_prompt_file [("content", MetaVal.s "  hi  ")] "f" []
        = Except.ok ⟨"hi",
            [("name", MetaVal.s "f"), ("version", MetaVal.s "1.0.0"),
             ("model", MetaVal.s "gpt-4"), ("temperature", MetaVal.n 7 1),
             ("max_tokens", MetaVal.nil), ("top_p", MetaVal.nil)], []⟩
    ∧ (⟨"hi",
            [("name", MetaVal.s "f"), ("version", MetaVal.s "1.0.0"),
             ("model", MetaVal.s "gpt-4"), ("temperature", MetaVal.n 7 1),
             ("max_tokens", MetaVal.nil), ("top_p", MetaVal.nil)], []⟩
          : ParsedPrompt).content
        = pyStrip (getStrD [("content", MetaVal.s "  hi  ")] "content" "") :=
  ⟨rfl,
   (c7_content_stored_verbatim "x" [] [] "a" "m" none emptyStore rfl).1,
   rfl,
   (c7_content_stored_verbatim "x" [] [] "a" "m" none emptyStore rfl).2
     [("content", MetaVal.s "  hi  ")] "f" [] _ rfl⟩

/-! ## Claim C8 -/

theorem historyWalk_length_le (db : Store) :
    ∀ (cur : Option VNode) (fuel : Nat), (historyWalk db cur fuel).length ≤ fuel := by
  intro cur fuel
  induction fuel generalizing cur with
  | zero => cases cur <;> simp [historyWalk]
  | succ f ih =>
    cases cur with
    | none => simp [historyWalk]
    | some c =>
      cases hp : c.parent_id with
      | none => simp [historyWalk, hp]
      | some pid =>
        simp only [historyWalk, hp, List.length_cons]
        exact Nat.succ_le_succ (ih _)

theorem historyWalk_chain (db : Store) :
    ∀ (cur : Option VNode) (fuel : Nat),
      List.Chain' (fun a b => a.parent_id = some b.id) (historyWalk db cur fuel) := by
  intro cur fuel
  induction fuel generalizing cur with
  | zero => cases cur <;> simp [historyWalk]
  | succ f ih =>
    cases cur with
    | none => simp [historyWalk]
    | some c =>
      cases hp : c.parent_id with
      | none => simp [historyWalk, hp]
      | some pid =>
        simp only [historyWalk, hp]
        cases hfind : findById db pid with
        | none =>
          cases f <;> simp [historyWalk]
        | some v =>
          have hR : c.parent_id = some v.id := by rw [findById_id hfind, hp]
          cases f with
          | zero => simp [historyWalk]
          | succ f2 =>
            have hch := ih (some v)
            cases hp2 : v.parent_id with
            | none =>
              simp only [historyWalk, hp2] at hch ⊢
              exact List.chain'_cons.mpr ⟨hR, by simp⟩
            | some pid2 =>
              simp only [historyWalk, hp2] at hch ⊢
              exact List.chain'_cons.mpr ⟨hR, hch⟩

theorem historyWalk_head (db : Store) (c : VNode) (fuel : Nat) (hf : 0 < fuel) :
    (historyWalk db (some c) fuel).head? = some c := by
  cases fuel with
  | zero => exact absurd hf (by simp)
  | succ f => cases hp : c.parent_id <;> simp [historyWalk, hp]

theorem getLast?_cons_ne {α : Type} (a : α) (l : List α) (h : l ≠ []) :
    (a :: l).getLast? = l.getLast? := by
  cases l with
  | nil => exact absurd rfl h
  | cons b t => simp [List.getLast?_cons_cons]

theorem historyWalk_last (db : Store) :
    ∀ (fuel : Nat) (cur : Option VNode) (z : VNode),
      (historyWalk db cur fuel).getLast? = some z →
      (historyWalk db cur fuel).length < fuel →
      z.parent_id = none ∨ ∃ pid, z.parent_id = some pid ∧ findById db pid = none := by
  intro fuel
  induction fuel with
  | zero => intro cur z hz hlen; simp at hlen
  | succ f ih =>
    intro cur z hz hlen
    cases cur with
    | none => simp [historyWalk] at hz
    | some c =>
      cases hp : c.parent_id with
      | none =>
        simp [historyWalk, hp] at hz
        exact Or.inl (hz ▸ hp)
      | some pid =>
        cases hfind : findById db pid with
        | none =>
          have hz2 : c = z := by
            cases f <;> simpa [historyWalk, hp, hfind] using hz
          exact Or.inr ⟨pid, hz2 ▸ hp, hfind⟩
        | some v =>
          cases f with
          | zero => simp [historyWalk, hp] at hlen
          | succ f2 =>
            simp only [historyWalk, hp, hfind] at hz hlen
            cases hp2 : v.parent_id with
            | none =>
              rw [hp2] at hz
              simp at hz
              exact Or.inl (hz ▸ hp2)
            | some pid2 =>
              rw [hp2] at hz hlen
              rw [List.getLast?_cons_cons] at hz
              have hwalk : historyWalk db (some v) (f2 + 1)
                  = v :: historyWalk db (findById db pid2) f2 := by
                simp [historyWalk, hp2]
              refine ih (some v) z (by rw [hwalk]; exact hz) ?_
              rw [hwalk]
              simp only [List.length_cons] at hlen ⊢
              omega

/-- C8: `get_version_history` always terminates (it is a total function of
the store); it returns at most `limit` nodes; consecutive returned nodes
satisfy child-then-parent (`res[i].parent_id = some res[i+1].id`); with no
`start_from` it starts at the newest node; and when it returns fewer than
`limit` nodes the walk stopped at a node with no parent (or with a parent
id absent from the store). -/
theorem c8_history_bounded_chain (db : Store) (limit : Nat) (start_from : Option Nat) :
    (get_version_history db limit start_from).length ≤ limit
    ∧ List.Chain' (fun a b => a.parent_id = some b.id)
        (get_version_history db limit start_from)
    ∧ (∀ hd, get_current_head db = some hd → 0 < limit →
        (get_version_history db limit none).head? = some hd)
    ∧ (∀ z, (get_version_history db limit start_from).getLast? = some z →
        (get_version_history db limit start_from).length < limit →
        z.parent_id = none ∨ ∃ pid, z.parent_id = some pid ∧ findById db pid = none) := by
  refine ⟨?_, ?_, ?_, ?_⟩
  · unfold get_version_history
    cases start_from <;> exact historyWalk_length_le db _ limit
  · unfold get_version_history
    cases start_from <;> exact historyWalk_chain db _ limit
  · intro hd hhd hlim
    unfold get_version_history
    rw [hhd]
    exact historyWalk_head db hd limit hlim
  · intro z hz hlen
    unfold get_version_history at hz hlen
    cases start_from <;> exact historyWalk_last db limit _ z hz hlen

/-- Witness for C8 on the two-node store, with room to spare in the limit. -/
theorem c8_witness :
    (get_version_history histStore 5 none).length ≤ 5
    ∧ List.Chain' (fun a b => a.parent_id = some b.id)
        (get_version_history histStore 5 none)
    ∧ get_current_head histStore = some ⟨1, "child", "bbb", some 0, "bob", 1, [], []⟩
    ∧ (get_version_history histStore 5 none).head?
        = some ⟨1, "child", "bbb", some 0, "bob", 1, [], []⟩
    ∧ (get_version_history histStore 5 none).getLast?
        = some ⟨0, "root", "aaa", none, "alice", 0, [], []⟩
    ∧ ((⟨0, "root", "aaa", none, "alice", 0, [], []⟩ : VNode).parent_id = none
        ∨ ∃ pid, (⟨0, "root", "aaa", none, "alice", 0, [], []⟩ : VNode).parent_id = some pid
            ∧ findById histStore pid = none) :=
  ⟨(c8_history_bounded_chain histStore 5 none).1,
   (c8_history_bounded_chain histStore 5 none).2.1,
   by decide,
   (c8_history_bounded_chain histStore 5 none).2.2.1 _ (by decide) (by decide),
   by decide,
   (c8_history_bounded_chain histStore 5 none).2.2.2 _ (by decide) (by decide)⟩

/-! ## Claim C9 -/

/-- C9: every cache operation is total and never surfaces an exception to
its caller: whatever the Redis behaviour — unavailable, failing on get,
setex, keys or delete, or returning undecodable payloads — `get_from_cache`
returns `.ok` (a miss on failure) and `set_cache`/`invalidate_cache` return
`.ok ()`, so a cache failure never fails the surrounding operation. -/
theorem c9_cache_never_raises {α : Type} (b : RedisConn α) (env : String)
    (name : Option String) (data : α) (ttl : Nat) :
    (∃ v, get_from_cache b env name = Except.ok v)
    ∧ set_cache b env data name ttl = Except.ok ()
    ∧ invalidate_cache b env = Except.ok ()
    ∧ (b.available = false → get_from_cache b env name = Except.ok none)
    ∧ (∀ e, b.rget (cacheKey env name) = Except.error e →
        get_from_cache b env name = Except.ok none) := by
  refine ⟨?_, ?_, ?_, ?_, ?_⟩
  · unfold get_from_cache
    by_cases hav : b.available = false
    · exact ⟨none, by simp [hav]⟩
    · simp only [hav, if_false]
      cases getFromCacheBody b env name with
      | ok v => exact ⟨v, rfl⟩
      | error e => exact ⟨none, rfl⟩
  · unfold set_cache
    by_cases hav : b.available = false
    · simp [hav]
    · simp only [hav, if_false]
      cases b.rsetex (cacheKey env name) ttl (b.encode data) <;> rfl
  · unfold invalidate_cache
    by_cases hav : b.available = false
    · simp [hav]
    · simp only [hav, if_false]
      cases invalidateBody b env <;> rfl
  · intro hav
    simp [get_from_cache, hav]
  · intro e he
    unfold get_from_cache
    by_cases hav : b.available = false
    · simp [hav]
    · simp only [hav, if_false]
      have hbody : getFromCacheBody b env name = Except.error e := by
        unfold getFromCacheBody
        rw [he]
        rfl
      rw [hbody]
      rfl

/-- Witness for C9: a connection whose every call raises is downgraded to a
miss or no-op. -/
theorem c9_witness :
    failConn.rget (cacheKey "staging" none) = Except.error "connection refused"
    ∧ get_from_cache failConn "staging" none = Except.ok none
    ∧ set_cache failConn "staging" 3 none 3600 = Except.ok ()
    ∧ invalidate_cache failConn "staging" = Except.ok () :=
  ⟨rfl,
   (c9_cache_never_raises failConn "staging" none 3 3600).2.2.2.2
     "connection refused" rfl,
   (c9_cache_never_raises failConn "staging" none 3 3600).2.1,
   (c9_cache_never_raises failConn "staging" none 3 3600).2.2.1⟩

/-! ## Deployment coordinator lemmas -/

theorem deactivate_id (env : String) (r : DRow) : (deactivate env r).id = r.id := by
  unfold deactivate
  split <;> rfl

theorem deactivate_env (env : String) (r : DRow) :
    (deactivate env r).environment = r.environment := by
  unfold deactivate
  split <;> rfl

theorem swapFlip_id (cid pid : Nat) (r : DRow) : (swapFlip cid pid r).id = r.id := by
  unfold swapFlip
  split
  · rfl
  · split <;> rfl

theorem swapFlip_env (cid pid : Nat) (r : DRow) :
    (swapFlip cid pid r).environment = r.environment := by
  unfold swapFlip
  split
  · rfl
  · split <;> rfl

theorem activeFor_deactivate (env : String) (r : DRow) :
    activeFor env (deactivate env r) = false := by
  unfold deactivate activeFor
  cases he : (r.environment == env) <;> cases ha : r.is_active <;> simp [he, ha]

theorem activeFor_deactivate_other (env env2 : String) (hne : env2 ≠ env) (r : DRow) :
    activeFor env2 (deactivate env r) = activeFor env2 r := by
  unfold deactivate
  split
  · rename_i hact
    unfold activeFor at hact ⊢
    simp only [Bool.and_eq_true, beq_iff_eq] at hact
    have hff : (r.environment == env2) = false := by
      refine beq_eq_false_iff_ne.mpr ?_
      rw [hact.1]
      exact fun hh => hne hh.symm
    simp [hff]
  · rfl

theorem filter_activeFor (env : String) (l : List DRow) :
    l.filter (activeFor env)
      = (l.filter (fun r => r.environment == env)).filter (fun r => r.is_active) := by
  induction l with
  | nil => rfl
  | cons a t ih =>
    cases he : (a.environment == env) <;> cases ha : a.is_active <;>
      simp [List.filter_cons, activeFor, he, ha, ih]

theorem filter_prevFor (env : String) (cid : Nat) (l : List DRow) :
    l.filter (fun r => r.environment == env && r.id != cid)
      = (l.filter (fun r => r.environment == env)).filter (fun r => r.id != cid) := by
  induction l with
  | nil => rfl
  | cons a t ih =>
    cases he : (a.environment == env) <;> cases hb : (a.id != cid) <;>
      simp [List.filter_cons, he, hb, ih]

theorem deploy_ok (env h actor : String) (s : DState) (v : VNode)
    (hv : findVersionByHash s.versions h = some v) :
    deploy env h actor s
      = .ok (⟨s.nextDepId, v.id, env, s.clock, actor, true⟩,
        { s with deps := (s.deps.map (deactivate env)
                   ++ [⟨s.nextDepId, v.id, env, s.clock, actor, true⟩]),
                 nextDepId := s.nextDepId + 1, clock := s.clock + 1 }) := by
  simp only [deploy, hv]

theorem rollback_ok (env : String) (s : DState) (current previous : DRow)
    (hc : latestDeployed (s.deps.filter (activeFor env)) = some current)
    (hp : latestDeployed (s.deps.filter
        (fun r => r.environment == env && r.id != current.id)) = some previous) :
    rollback env s
      = .ok { s with deps := s.deps.map (swapFlip current.id previous.id) } := by
  simp only [rollback, hc, hp]

/-- The invariant holds of the state a successful deploy produces. -/
theorem DInv_deploy (env actor : String) (vid : Nat) (s : DState) (hs : DInv s) :
    DInv { s with
      deps := (s.deps.map (deactivate env)
        ++ [⟨s.nextDepId, vid, env, s.clock, actor, true⟩]),
      nextDepId := s.nextDepId + 1,
      clock := s.clock + 1 } := by
  obtain ⟨hpw, hbound, hact⟩ := hs
  refine ⟨?_, ?_, ?_⟩
  · rw [List.pairwise_append]
    refine ⟨?_, by simp, ?_⟩
    · rw [List.pairwise_map]
      exact hpw.imp (fun {a b} hab => by simpa [deactivate_id] using hab)
    · intro a ha b hb
      simp only [List.mem_singleton] at hb
      obtain ⟨r, hr, rfl⟩ := List.mem_map.mp ha
      rw [hb, deactivate_id]
      exact Nat.ne_of_lt (hbound r hr)
  · intro r hr
    rw [List.mem_append] at hr
    cases hr with
    | inl hmap =>
      obtain ⟨x, hx, rfl⟩ := List.mem_map.mp hmap
      rw [deactivate_id]
      exact Nat.lt_succ_of_lt (hbound x hx)
    | inr hnew =>
      simp only [List.mem_singleton] at hnew
      rw [hnew]
      exact Nat.lt_succ_self _
  · intro env2
    unfold countActive
    simp only [List.filter_append, List.length_append]
    by_cases henv : env2 = env
    · subst henv
      have hnil := filter_map_nil (deactivate env2) (activeFor env2) s.deps
        (fun r _ => activeFor_deactivate env2 r)
      rw [hnil]
      simp [activeFor, List.filter]
    · have hpt : ∀ r ∈ s.deps,
          activeFor env2 (deactivate env r) = activeFor env2 r :=
        fun r _ => activeFor_deactivate_other env env2 henv r
      rw [filter_map_eq _ _ _ hpt, List.length_map]
      have hff : (env == env2) = false :=
        beq_eq_false_iff_ne.mpr (fun hh => henv hh.symm)
      have hnew : List.filter (activeFor env2)
          [(⟨s.nextDepId, vid, env, s.clock, actor, true⟩ : DRow)] = [] := by
        simp [activeFor, List.filter, hff]
      rw [hnew]
      simpa using hact env2

theorem deploy_DInv {env h actor : String} {s : DState} {d : DRow} {s2 : DState}
    (hs : DInv s) (hd : deploy env h actor s = .ok (d, s2)) : DInv s2 := by
  unfold deploy at hd
  split at hd
  · simp at hd
  · rename_i v hv
    simp only [Except.ok.injEq, Prod.mk.injEq] at hd
    rw [← hd.2]
    exact DInv_deploy env actor v.id s hs

theorem rollback_DInv {env : String} {s s2 : DState}
    (hs : DInv s) (hr : rollback env s = .ok s2) : DInv s2 := by
  obtain ⟨hpw, hbound, hact⟩ := hs
  unfold rollback at hr
  split at hr
  · simp at hr
  · rename_i current hcur
    split at hr
    · simp at hr
    · rename_i previous hprev
      simp only [Except.ok.injEq] at hr
      rw [← hr]
      have hcmem := List.mem_filter.mp (latestDeployed_mem hcur)
      have hpmem := List.mem_filter.mp (latestDeployed_mem hprev)
      have hcenv : current.environment = env := by
        have := hcmem.2
        unfold activeFor at this
        simp only [Bool.and_eq_true, beq_iff_eq] at this
        exact this.1
      have hcact : current.is_active = true := by
        have := hcmem.2
        unfold activeFor at this
        simp only [Bool.and_eq_true] at this
        exact this.2
      have hpenv : previous.environment = env := by
        have := hpmem.2
        simp only [Bool.and_eq_true, beq_iff_eq] at this
        exact this.1
      refine ⟨?_, ?_, ?_⟩
      · rw [List.pairwise_map]
        exact hpw.imp (fun {a b} hab => by simpa [swapFlip_id] using hab)
      · intro r hr2
        obtain ⟨x, hx, rfl⟩ := List.mem_map.mp hr2
        rw [swapFlip_id]
        exact hbound x hx
      · intro env2
        by_cases henv : env2 = env
        · subst henv
          have hsing : s.deps.filter (activeFor env2) = [current] :=
            mem_length_le_one (latestDeployed_mem hcur) (hact env2)
          have himp : ∀ r ∈ s.deps,
              activeFor env2 (swapFlip current.id previous.id r) = true →
              (r.id == previous.id) = true := by
            intro r hrmem hactr
            by_cases hc1 : (r.id == current.id) = true
            · exfalso
              simp [swapFlip, hc1, activeFor] at hactr
            · by_cases hc2 : (r.id == previous.id) = true
              · exact hc2
              · have hfix : swapFlip current.id previous.id r = r := by
                  simp [swapFlip, hc1, hc2]
                rw [hfix] at hactr
                have hrin : r ∈ s.deps.filter (activeFor env2) :=
                  List.mem_filter.mpr ⟨hrmem, hactr⟩
                rw [hsing] at hrin
                simp only [List.mem_singleton] at hrin
                subst hrin
                exact (hc1 (by simp)).elim
          refine le_trans
            (filter_map_length_le (swapFlip current.id previous.id)
              (activeFor env2) (fun r => r.id == previous.id) s.deps himp)
            (pairwise_id_filter_le_one hpw previous.id)
        · have hpt : ∀ r ∈ s.deps,
              activeFor env2 (swapFlip current.id previous.id r)
                = activeFor env2 r := by
            intro r hrmem
            by_cases hc1 : (r.id == current.id) = true
            · have hrc : r = current :=
                pairwise_unique_id hpw hrmem hcmem.1 (by simpa using hc1)
              subst hrc
              have hff : (r.environment == env2) = false := by
                rw [hcenv]
                exact beq_eq_false_iff_ne.mpr (fun hh => henv hh.symm)
              simp [swapFlip, activeFor, hff]
            · by_cases hc2 : (r.id == previous.id) = true
              · have hrp : r = previous :=
                  pairwise_unique_id hpw hrmem hpmem.1 (by simpa using hc2)
                subst hrp
                have hff : (r.environment == env2) = false := by
                  rw [hpenv]
                  exact beq_eq_false_iff_ne.mpr (fun hh => henv hh.symm)
                simp [swapFlip, activeFor, hc1, hff]
              · have hfix : swapFlip current.id previous.id r = r := by
                  simp [swapFlip, hc1, hc2]
                rw [hfix]
          unfold countActive
          rw [filter_map_eq _ _ _ hpt, List.length_map]
          exact hact env2

theorem stepOp_DInv {s : DState} (hs : DInv s) (op : DOp) : DInv (stepOp s op) := by
  cases op with
  | deploy env h actor =>
    cases hd : deploy env h actor s with
    | ok p =>
      obtain ⟨d, s2⟩ := p
      simp only [stepOp, hd]
      exact deploy_DInv hs hd
    | error e =>
      simp only [stepOp, hd]
      exact hs
  | rollback env =>
    cases hr : rollback env s with
    | ok s2 =>
      simp only [stepOp, hr]
      exact rollback_DInv hs hr
    | error e =>
      simp only [stepOp, hr]
      exact hs

theorem runOps_DInv (ops : List DOp) {s : DState} (hs : DInv s) :
    DInv (runOps ops s) := by
  induction ops generalizing s with
  | nil => exact hs
  | cons op rest ih => exact ih (stepOp_DInv hs op)

theorem DInv_init (versions : List VNode) : DInv (initDState versions) := by
  refine ⟨List.Pairwise.nil, ?_, ?_⟩ <;> simp [initDState, countActive]

/-! ## Claim C1 -/

/-- C1: starting from zero deployments, after any sequence of interleaved
deploy/rollback calls (successful or failing) there is at most one active
Deployment row per environment.  Since `ops` is arbitrary, this holds at
every point between operations of any longer sequence. -/
theorem c1_single_active_invariant (versions : List VNode) (ops : List DOp)
    (env : String) :
    countActive env (runOps ops (initDState versions)) ≤ 1 :=
  (runOps_DInv ops (DInv_init versions)).2.2 env

/-! ## Claim C4 -/

/-- C4: with exactly two deployment rows in an environment — `d1` deployed
first and now inactive, `d2` deployed second and now active — rollback
succeeds, flips `d1` active and `d2` inactive, keeps both rows' version
references (only `is_active` changes), and appends no row. -/
theorem c4_rollback_swap (s : DState) (env : String) (d1 d2 : DRow)
    (hfilter : s.deps.filter (fun r => r.environment == env) = [d1, d2])
    (hid : d1.id ≠ d2.id)
    (ht : d1.deployed_at < d2.deployed_at)
    (h1 : d1.is_active = false) (h2 : d2.is_active = true) :
    rollback env s = .ok { s with deps := s.deps.map (swapFlip d2.id d1.id) }
    ∧ (s.deps.map (swapFlip d2.id d1.id)).filter (fun r => r.environment == env)
        = [{ d1 with is_active := true }, { d2 with is_active := false }]
    ∧ (s.deps.map (swapFlip d2.id d1.id)).length = s.deps.length := by
  have hactive : s.deps.filter (activeFor env) = [d2] := by
    rw [filter_activeFor, hfilter]
    simp [List.filter, h1, h2]
  have hprevf : s.deps.filter (fun r => r.environment == env && r.id != d2.id)
      = [d1] := by
    have hbne : (d1.id != d2.id) = true := bne_iff_ne.mpr hid
    rw [filter_prevFor env d2.id, hfilter]
    simp [List.filter, hbne]
  have hcur : latestDeployed (s.deps.filter (activeFor env)) = some d2 := by
    rw [hactive]; rfl
  have hprev : latestDeployed (s.deps.filter
      (fun r => r.environment == env && r.id != d2.id)) = some d1 := by
    rw [hprevf]; rfl
  refine ⟨rollback_ok env s d2 d1 hcur hprev, ?_, by rw [List.length_map]⟩
  have hpt : ∀ r ∈ s.deps,
      ((swapFlip d2.id d1.id r).environment == env) = (r.environment == env) :=
    fun r _ => by rw [swapFlip_env]
  rw [filter_map_eq _ _ _ hpt, hfilter]
  have hb : (d1.id == d2.id) = false := beq_eq_false_iff_ne.mpr hid
  have e1 : swapFlip d2.id d1.id d1 = { d1 with is_active := true } := by
    simp [swapFlip, hb]
  have e2 : swapFlip d2.id d1.id d2 = { d2 with is_active := false } := by
    simp [swapFlip]
  simp [e1, e2]

/-- Witness for C4 at a concrete two-row staging environment. -/
theorem c4_witness :
    (⟨[], [⟨0, 5, "staging", 0, "alice", false⟩, ⟨1, 6, "staging", 1, "bob", true⟩],
        2, 2⟩ : DState).deps.filter (fun r => r.environment == "staging")
      = [⟨0, 5, "staging", 0, "alice", false⟩, ⟨1, 6, "staging", 1, "bob", true⟩]
    ∧ rollback "staging"
        ⟨[], [⟨0, 5, "staging", 0, "alice", false⟩, ⟨1, 6, "staging", 1, "bob", true⟩],
         2, 2⟩
      = .ok ⟨[], [⟨0, 5, "staging", 0, "alice", true⟩, ⟨1, 6, "staging", 1, "bob", false⟩],
         2, 2⟩ :=
  ⟨by decide,
   ((c4_rollback_swap
      ⟨[], [⟨0, 5, "staging", 0, "alice", false⟩, ⟨1, 6, "staging", 1, "bob", true⟩], 2, 2⟩
      "staging" ⟨0, 5, "staging", 0, "alice", false⟩ ⟨1, 6, "staging", 1, "bob", true⟩
      (by decide) (by decide) (by decide) (by decide) (by decide)).1).trans (by decide)⟩

/-! ## Claim C5 (corrected) -/

/-- C5 counterexample: the claim says a second rollback (no third
deployment) fails with InvalidState and leaves the flags unchanged; in the
code the previous-deployment query only excludes the current row, so on the
post-rollback state (D1 active and older, D2 inactive and newer) a second
rollback succeeds and toggles the two flags back. -/
theorem c5_counterexample :
    rollback "staging"
      ⟨[], [⟨0, 5, "staging", 0, "alice", true⟩, ⟨1, 6, "staging", 1, "bob", false⟩],
       2, 2⟩
      = .ok ⟨[], [⟨0, 5, "staging", 0, "alice", false⟩, ⟨1, 6, "staging", 1, "bob", true⟩],
       2, 2⟩ := by
  decide

/-- C5 amended: after a successful rollback in a two-row environment (`d1`
older and now active, `d2` newer and now inactive), a second rollback does
not fail: it succeeds and toggles the pair back (`d1` inactive, `d2`
active), appending no row; `rollback` fails only when the environment has
no active row or no row besides the current one. -/
theorem c5_second_rollback_toggles (s : DState) (env : String) (d1 d2 : DRow)
    (hfilter : s.deps.filter (fun r => r.environment == env) = [d1, d2])
    (hid : d1.id ≠ d2.id)
    (ht : d1.deployed_at < d2.deployed_at)
    (h1 : d1.is_active = true) (h2 : d2.is_active = false) :
    rollback env s = .ok { s with deps := s.deps.map (swapFlip d1.id d2.id) }
    ∧ (s.deps.map (swapFlip d1.id d2.id)).filter (fun r => r.environment == env)
        = [{ d1 with is_active := false }, { d2 with is_active := true }]
    ∧ (s.deps.map (swapFlip d1.id d2.id)).length = s.deps.length := by
  have hactive : s.deps.filter (activeFor env) = [d1] := by
    rw [filter_activeFor, hfilter]
    simp [List.filter, h1, h2]
  have hprevf : s.deps.filter (fun r => r.environment == env && r.id != d1.id)
      = [d2] := by
    have hbne : (d2.id != d1.id) = true := bne_iff_ne.mpr (Ne.symm hid)
    rw [filter_prevFor env d1.id, hfilter]
    simp [List.filter, hbne]
  have hcur : latestDeployed (s.deps.filter (activeFor env)) = some d1 := by
    rw [hactive]; rfl
  have hprev : latestDeployed (s.deps.filter
      (fun r => r.environment == env && r.id != d1.id)) = some d2 := by
    rw [hprevf]; rfl
  refine ⟨rollback_ok env s d1 d2 hcur hprev, ?_, by rw [List.length_map]⟩
  have hpt : ∀ r ∈ s.deps,
      ((swapFlip d1.id d2.id r).environment == env) = (r.environment == env) :=
    fun r _ => by rw [swapFlip_env]
  rw [filter_map_eq _ _ _ hpt, hfilter]
  have hb : (d2.id == d1.id) = false := beq_eq_false_iff_ne.mpr (Ne.symm hid)
  have e1 : swapFlip d1.id d2.id d1 = { d1 with is_active := false } := by
    simp [swapFlip]
  have e2 : swapFlip d1.id d2.id d2 = { d2 with is_active := true } := by
    simp [swapFlip, hb]
  simp [e1, e2]

/-- Witness for C5 amended, on the concrete post-first-rollback state. -/
theorem c5_witness :
    (⟨[], [⟨0, 5, "staging", 0, "alice", true⟩, ⟨1, 6, "staging", 1, "bob", false⟩],
        2, 2⟩ : DState).deps.filter (fun r => r.environment == "staging")
      = [⟨0, 5, "staging", 0, "alice", true⟩, ⟨1, 6, "staging", 1, "bob", false⟩]
    ∧ rollback "staging"
        ⟨[], [⟨0, 5, "staging", 0, "alice", true⟩, ⟨1, 6, "staging", 1, "bob", false⟩],
         2, 2⟩
      = .ok ⟨[], [⟨0, 5, "staging", 0, "alice", false⟩, ⟨1, 6, "staging", 1, "bob", true⟩],
         2, 2⟩ :=
  ⟨by decide,
   ((c5_second_rollback_toggles
      ⟨[], [⟨0, 5, "staging", 0, "alice", true⟩, ⟨1, 6, "staging", 1, "bob", false⟩], 2, 2⟩
      "staging" ⟨0, 5, "staging", 0, "alice", true⟩ ⟨1, 6, "staging", 1, "bob", false⟩
      (by decide) (by decide) (by decide) (by decide) (by decide)).1).trans (by decide)⟩

end PromptOps
